import Mathlib

/-!
Verification of the glue module-manager core: the registry + dispatcher
(`src/manager.rs`), the type-erasure bridge (`src/module.rs`), and the
response aggregator (`src/response.rs`), shallowly embedded in Lean 4.

Modelling conventions:
* `serde_json::Value` is the inductive `Glue.Value`; its `Object` payload
  (`serde_json::Map`, a `BTreeMap` ordered by key) is a key-sorted
  association list maintained by `Glue.jmapInsert`.  Numbers are modelled
  as integers (the claims never exercise fractional payloads).
* `cosmwasm_std::Binary` holds the bytes of a JSON document; it is modelled
  as the `String` those UTF-8 bytes spell.
* The host context (`Deps`, `Env`, `MessageInfo`) is an opaque bundle passed
  through unmodified by every operation and never inspected by the core, so
  it is elided from the embedded signatures.
* `serde_json::from_str` on the inbound envelope is elided: dispatcher
  operations take the already-parsed `Value`.  The dispatcher's own
  "not an object" branch is kept.
* Rust `&mut self` receivers become explicit state passing: each `Manager`
  operation returns its result paired with the manager afterwards.
-/

namespace Glue

/-- A JSON value (`serde_json::Value`).  Object fields model
`serde_json::Map<String, Value>` (a `BTreeMap`): a key-sorted association
list, kept sorted by `jmapInsert` below.  Numbers are modelled as `Int`. -/
inductive Value where
  | null
  | bool (b : Bool)
  | num (n : Int)
  | str (s : String)
  | arr (elems : List Value)
  | obj (fields : List (String × Value))

/-- Insertion into a key-sorted association list: the model of
`BTreeMap::insert` used by `serde_json::Map`.  Replaces an equal key,
otherwise places the entry at its ordered position. -/
def jmapInsert : List (String × Value) → String → Value → List (String × Value)
  | [], k, v => [(k, v)]
  | (k', v') :: rest, k, v =>
    if k < k' then (k, v) :: (k', v') :: rest
    else if k = k' then (k, v) :: rest
    else (k', v') :: jmapInsert rest k v

/-- Bytes of a JSON document (`cosmwasm_std::Binary` as produced by
`serde_json::to_vec`), modelled as the string the bytes spell. -/
abbrev Binary := String

/-- A `wasm` event attribute (`cosmwasm_std::Attribute`). -/
structure Attribute where
  key : String
  value : String
deriving DecidableEq, Repr

/-- A custom event (`cosmwasm_std::Event`): a type tag plus attributes. -/
structure Event where
  ty : String
  attributes : List Attribute
deriving DecidableEq, Repr

/-- An outbound sub-message (`cosmwasm_std::SubMsg<Binary>`).  The wrapped
`CosmosMsg` is host-environment data the core never inspects, modelled as an
opaque JSON payload. -/
structure SubMsg where
  msg : Value

/-- The host response type `cosmwasm_std::Response<Binary>`. -/
structure CwResponse where
  messages : List SubMsg
  attributes : List Attribute
  events : List Event
  data : Option Binary

/-- `cosmwasm_std::Response::new()`: every sequence empty, no data. -/
def CwResponse.new : CwResponse := ⟨[], [], [], none⟩

/-- The crate's own response type (`response.rs`, `struct Response`): host
side effects plus an untyped data value (possibly `Null`). -/
structure GlueResponse where
  response : CwResponse
  data : Value

/-- `Response::default()` in `response.rs`: an empty host response and
`Null` data. -/
def GlueResponse.new : GlueResponse := ⟨CwResponse.new, .null⟩

/-- `cosmwasm_std::StdError`, restricted to the constructors the core can
produce. -/
inductive StdError where
  | genericErr (msg : String)
  | serializeErr (msg : String)
deriving DecidableEq, Repr

/-- The canonical error enum of `error.rs`. -/
inductive Error where
  | moduleAlreadyRegistered (module : String)
  | executionError (module : String) (err : String)
  | queryError (module : String) (err : String)
  | parseError (msg : Option String)
  | notFoundError (module : String)
deriving DecidableEq, Repr

/-- Rust `{:?}` escaping of one character inside a quoted string
(`char::escape_debug` on the cases the core's strings exercise). -/
def rustEscapeChar (c : Char) : String :=
  if c = '"' then "\\\""
  else if c = '\\' then "\\\\"
  else if c = '\n' then "\\n"
  else if c = '\r' then "\\r"
  else if c = '\t' then "\\t"
  else String.mk [c]

/-- Rust `{:?}` formatting of a `String`: quoted, with inner escapes. -/
def rustDebugStr (s : String) : String :=
  "\"" ++ String.join (s.data.map rustEscapeChar) ++ "\""

/-- Rust `{:?}` formatting of an `Option<String>`. -/
def rustDebugOptStr : Option String → String
  | none => "None"
  | some s => "Some(" ++ rustDebugStr s ++ ")"

/-- The derived `Debug` rendering of `error.rs`'s `Error`, as produced by the
dispatcher's `format!("{:?}", err)`. -/
def Error.debugFmt : Error → String
  | .moduleAlreadyRegistered m =>
      "ModuleAlreadyRegistered \x7b module: " ++ rustDebugStr m ++ " \x7d"
  | .executionError m e =>
      "ExecutionError \x7b module: " ++ rustDebugStr m ++ ", err: " ++ rustDebugStr e ++ " \x7d"
  | .queryError m e =>
      "QueryError \x7b module: " ++ rustDebugStr m ++ ", err: " ++ rustDebugStr e ++ " \x7d"
  | .parseError msg =>
      "ParseError \x7b msg: " ++ rustDebugOptStr msg ++ " \x7d"
  | .notFoundError m =>
      "NotFoundError \x7b module: " ++ rustDebugStr m ++ " \x7d"

/-- The `thiserror`-derived `Display` rendering of `Error` (the `#[error]`
format strings of `error.rs`), used by `err.to_string()`. -/
def Error.display : Error → String
  | .moduleAlreadyRegistered m =>
      "module " ++ rustDebugStr m ++ " already registered"
  | .executionError m e =>
      "error executing module " ++ rustDebugStr m ++ ": " ++ rustDebugStr e
  | .queryError m e =>
      "error querying module " ++ rustDebugStr m ++ ": " ++ rustDebugStr e
  | .parseError msg =>
      "error parsing request: " ++ rustDebugOptStr msg
  | .notFoundError m =>
      "module " ++ rustDebugStr m ++ " not found"

/-! The compact JSON writer (`serde_json::to_vec` / `to_string` on a
`Value`), producing the exact byte sequence serde emits: no whitespace,
objects in the map's key order, strings escaped per serde's escape table. -/

/-- The opening-brace character, spelled numerically. -/
def lbraceC : Char := Char.ofNat 123

/-- The closing-brace character, spelled numerically. -/
def rbraceC : Char := Char.ofNat 125

/-- Decimal digit character for `d < 10`. -/
def decDigit (d : Nat) : Char := Char.ofNat (48 + d)

/-- Lowercase hexadecimal digit character for `d < 16`, serde's
`\u00XX` digit table. -/
def hexDigitLc (d : Nat) : Char :=
  if d < 10 then Char.ofNat (48 + d) else Char.ofNat (87 + d)

/-- Decimal digit characters of `n`, most significant first, in front of
`acc` (the itoa rendering serde delegates integer output to). -/
def natChars (n : Nat) (acc : List Char) : List Char :=
  if n < 10 then decDigit n :: acc
  else natChars (n / 10) (decDigit (n % 10) :: acc)
termination_by n
decreasing_by omega

/-- Decimal rendering of an integer: optional minus sign, then digits. -/
def intChars (i : Int) : List Char :=
  if i < 0 then '-' :: natChars i.natAbs [] else natChars i.natAbs []

/-- One string character, escaped as serde's writer emits it: `"` and `\`
get a backslash, the five short control escapes are used where they exist,
any other control character becomes `\u00XX`, and everything else is
emitted as itself. -/
def escChar (c : Char) : List Char :=
  if c = '"' then ['\\', '"']
  else if c = '\\' then ['\\', '\\']
  else if c = Char.ofNat 8 then ['\\', 'b']
  else if c = '\t' then ['\\', 't']
  else if c = '\n' then ['\\', 'n']
  else if c = Char.ofNat 12 then ['\\', 'f']
  else if c = '\r' then ['\\', 'r']
  else if c.toNat < 32 then
    ['\\', 'u', '0', '0', hexDigitLc (c.toNat / 16), hexDigitLc (c.toNat % 16)]
  else [c]

/-- A JSON string literal: quote, escaped characters, quote. -/
def strChars (s : String) : List Char :=
  '"' :: (s.data.flatMap escChar ++ ['"'])

mutual

/-- Characters of the compact JSON rendering of a value. -/
def valChars : Value → List Char
  | .null => ['n', 'u', 'l', 'l']
  | .bool b => if b then ['t', 'r', 'u', 'e'] else ['f', 'a', 'l', 's', 'e']
  | .num n => intChars n
  | .str s => strChars s
  | .arr es => '[' :: (arrChars es ++ [']'])
  | .obj ms => lbraceC :: (objChars ms ++ [rbraceC])

/-- Comma-separated renderings of array elements (no brackets). -/
def arrChars : List Value → List Char
  | [] => []
  | [v] => valChars v
  | v :: w :: rest => valChars v ++ ',' :: arrChars (w :: rest)

/-- Comma-separated `"key":value` renderings of object fields (no braces). -/
def objChars : List (String × Value) → List Char
  | [] => []
  | [(k, v)] => strChars k ++ ':' :: valChars v
  | (k, v) :: f :: rest => strChars k ++ ':' :: valChars v ++ ',' :: objChars (f :: rest)

end

/-- `serde_json::to_vec` of a value, as the string its bytes spell. -/
def encodeJson (v : Value) : Binary := String.mk (valChars v)

/-! Modelled from the spec: `serde_json` deserialization of the outbound
binary payload back into a `Value` (`from_slice`), which the spec's
round-trip property composes with the writer above but which is external
library code, not part of `src/`.  The model reads the writer's compact
form (object fields collected through the `BTreeMap` insertion the
`serde_json::Map` performs) and rejects malformed input with `none`. -/

/-- ASCII decimal digit test. -/
def isDigitC (c : Char) : Bool := 48 ≤ c.toNat && c.toNat ≤ 57

/-- Whether the input cannot extend a decimal number: empty, or headed by a
non-digit (every JSON delimiter qualifies). -/
def numStop : List Char → Bool
  | [] => true
  | c :: _ => !isDigitC c

/-- Consume a run of decimal digits, folding them most-significant-first
onto `acc`; stops at the first non-digit. -/
def readNat : List Char → Nat → Nat × List Char
  | c :: cs, acc =>
    if isDigitC c then readNat cs (acc * 10 + (c.toNat - 48)) else (acc, c :: cs)
  | [], acc => (acc, [])

/-- Read an integer: an optional minus sign, then a nonempty digit run. -/
def readInt : List Char → Option (Int × List Char)
  | [] => none
  | c :: cs =>
    if c = '-' then
      match cs with
      | d :: _ =>
        if isDigitC d then
          let (n, r) := readNat cs 0
          some (-(n : Int), r)
        else none
      | [] => none
    else if isDigitC c then
      let (n, r) := readNat (c :: cs) 0
      some ((n : Int), r)
    else none

/-- Value of one hexadecimal digit character. -/
def readHex (c : Char) : Option Nat :=
  if 48 ≤ c.toNat && c.toNat ≤ 57 then some (c.toNat - 48)
  else if 97 ≤ c.toNat && c.toNat ≤ 102 then some (c.toNat - 87)
  else if 65 ≤ c.toNat && c.toNat ≤ 70 then some (c.toNat - 55)
  else none

/-- Undo a single-character escape (the short forms of the escape table). -/
def unescC (c : Char) : Option Char :=
  if c = '"' then some '"'
  else if c = '\\' then some '\\'
  else if c = '/' then some '/'
  else if c = 'b' then some (Char.ofNat 8)
  else if c = 'f' then some (Char.ofNat 12)
  else if c = 'n' then some '\n'
  else if c = 'r' then some '\r'
  else if c = 't' then some '\t'
  else none

/-- Read the body of a string literal after its opening quote, undoing
escapes; characters are accumulated in reverse in `acc`. -/
def readStrBody : List Char → List Char → Option (String × List Char)
  | acc, '"' :: rest => some (String.mk acc.reverse, rest)
  | acc, '\\' :: 'u' :: a :: b :: c :: d :: rest =>
    match readHex a, readHex b, readHex c, readHex d with
    | some x, some y, some z, some w =>
      readStrBody (Char.ofNat (((x * 16 + y) * 16 + z) * 16 + w) :: acc) rest
    | _, _, _, _ => none
  | acc, '\\' :: e :: rest =>
    match unescC e with
    | some ch => readStrBody (ch :: acc) rest
    | none => none
  | acc, c :: rest => readStrBody (c :: acc) rest
  | _, [] => none

/-- Collect parsed object fields through `jmapInsert`, the way
`serde_json`'s map visitor inserts each `(key, value)` into a
`BTreeMap`. -/
def collectFields (fs : List (String × Value)) : List (String × Value) :=
  fs.foldl (fun m kv => jmapInsert m kv.1 kv.2) []

mutual

/-- Read one JSON value (compact form); `fuel` bounds the recursion and is
chosen from the input length at the top entry point. -/
def readVal : Nat → List Char → Option (Value × List Char)
  | 0, _ => none
  | fuel + 1, cs =>
    match cs with
    | [] => none
    | c :: r =>
      if c = 'n' then
        match r with
        | 'u' :: 'l' :: 'l' :: r' => some (.null, r')
        | _ => none
      else if c = 't' then
        match r with
        | 'r' :: 'u' :: 'e' :: r' => some (.bool true, r')
        | _ => none
      else if c = 'f' then
        match r with
        | 'a' :: 'l' :: 's' :: 'e' :: r' => some (.bool false, r')
        | _ => none
      else if c = '"' then
        match readStrBody [] r with
        | some (s, r') => some (.str s, r')
        | none => none
      else if c = '[' then
        match r with
        | [] => none
        | d :: r' =>
          if d = ']' then some (.arr [], r')
          else
            match readItems fuel (d :: r') with
            | some (vs, r'') => some (.arr vs, r'')
            | none => none
      else if c = lbraceC then
        match r with
        | [] => none
        | d :: r' =>
          if d = rbraceC then some (.obj [], r')
          else
            match readFields fuel (d :: r') with
            | some (fs, r'') => some (.obj (collectFields fs), r'')
            | none => none
      else if c = '-' || isDigitC c then
        match readInt (c :: r) with
        | some (n, r') => some (.num n, r')
        | none => none
      else none

/-- Read one-or-more comma-separated array elements up to the closing
bracket (the empty array is handled by `readVal`). -/
def readItems : Nat → List Char → Option (List Value × List Char)
  | 0, _ => none
  | fuel + 1, cs =>
    match readVal fuel cs with
    | some (v, r) =>
      match r with
      | [] => none
      | s :: r' =>
        if s = ',' then
          match readItems fuel r' with
          | some (vs, r'') => some (v :: vs, r'')
          | none => none
        else if s = ']' then some ([v], r')
        else none
    | none => none

/-- Read one-or-more comma-separated `"key":value` fields up to the closing
brace (the empty object is handled by `readVal`). -/
def readFields : Nat → List Char → Option (List (String × Value) × List Char)
  | 0, _ => none
  | fuel + 1, cs =>
    match cs with
    | '"' :: r =>
      match readStrBody [] r with
      | some (k, r1) =>
        match r1 with
        | ':' :: r2 =>
          match readVal fuel r2 with
          | some (v, r3) =>
            match r3 with
            | [] => none
            | s :: r4 =>
              if s = ',' then
                match readFields fuel r4 with
                | some (fs, r5) => some ((k, v) :: fs, r5)
                | none => none
              else if s = rbraceC then some ([(k, v)], r4)
              else none
          | none => none
        | _ => none
      | none => none
    | _ => none

end

/-- `serde_json::from_slice` into a `Value`: read one value spanning the
whole input. -/
def decodeJson (b : Binary) : Option Value :=
  match readVal (b.data.length + 1) b.data with
  | some (v, []) => some v
  | _ => none

/-- Key-sortedness of object fields: the invariant `serde_json::Map`'s
`BTreeMap` maintains, which the writer's output reflects. -/
def keysSorted : List (String × Value) → Bool
  | [] => true
  | [_] => true
  | (k1, _) :: (k2, v2) :: rest =>
    decide (k1 < k2) && keysSorted ((k2, v2) :: rest)

mutual

/-- A value in the canonical form `serde_json` `Value`s inhabit: every
object's fields strictly sorted by key (the `BTreeMap` invariant),
recursively. -/
def canonical : Value → Bool
  | .null => true
  | .bool _ => true
  | .num _ => true
  | .str _ => true
  | .arr es => canonicalItems es
  | .obj fs => keysSorted fs && canonicalFields fs

/-- `canonical` over array elements. -/
def canonicalItems : List Value → Bool
  | [] => true
  | v :: vs => canonical v && canonicalItems vs

/-- `canonical` over object field values. -/
def canonicalFields : List (String × Value) → Bool
  | [] => true
  | (_, v) :: fs => canonical v && canonicalFields fs

end

/-! The response aggregator of `response.rs`. -/

/-- `Aggregator`: a host response being accumulated, plus the
`serde_json::Map` of per-module data values. -/
structure Aggregator where
  resp : CwResponse
  data : List (String × Value)

/-- `Aggregator::new()` / `default()`: empty response, empty map. -/
def Aggregator.new : Aggregator := ⟨CwResponse.new, []⟩

/-- `Aggregator::fold_response`: record the module's data value under its
name and append the module's events, attributes and messages to the
accumulated sequences. -/
def Aggregator.fold_response (a : Aggregator) (module : String) (resp : GlueResponse) :
    Aggregator :=
  { data := jmapInsert a.data module resp.data
    resp := { a.resp with
      events := a.resp.events ++ resp.response.events
      attributes := a.resp.attributes ++ resp.response.attributes
      messages := a.resp.messages ++ resp.response.messages } }

/-- `Aggregator::aggregate`: when the data map is non-empty, serialize it
into the response's data payload; return the accumulated response. -/
def Aggregator.aggregate (a : Aggregator) : CwResponse :=
  if a.data.isEmpty then a.resp
  else { a.resp with data := some (encodeJson (.obj a.data)) }

/-- The `From<Response> for cosmwasm_std::Response<Binary>` conversion of
`response.rs`: `Null` data becomes no data field, any other data value is
serialized into the data payload; the side-effect sequences carry over. -/
def responseToCw (r : GlueResponse) : CwResponse :=
  { messages := r.response.messages
    attributes := r.response.attributes
    events := r.response.events
    data := match r.data with
      | .null => none
      | d => some (encodeJson d) }

/-! The type-erasure bridge of `module.rs`. -/

/-- A `serde_json::Error`, modelled by the string its `Display` produces. -/
structure SerdeError where
  msg : String
deriving DecidableEq, Repr

/-- `serde_json::Error::to_string()`. -/
def SerdeError.toString (e : SerdeError) : String := e.msg

/-- A typed module (the `Module` trait): its handlers, together with the
(de)serialization dictionaries the trait bounds supply for its associated
message and response types, and the `Display` rendering of its error type. -/
structure Module (IMsg IResp EMsg QMsg QResp Err : Type) where
  deserializeInstantiateMsg : Value → Except SerdeError IMsg
  serializeInstantiateResp : IResp → Except SerdeError Value
  deserializeExecuteMsg : Value → Except SerdeError EMsg
  deserializeQueryMsg : Value → Except SerdeError QMsg
  serializeQueryResp : QResp → Except SerdeError Value
  errToString : Err → String
  instantiate : IMsg → Except Err IResp
  execute : EMsg → Except Err CwResponse
  query : QMsg → Except Err QResp

/-- The blanket `GenericModule` impl's `instantiate_value`: deserialize the
payload, run the typed handler, serialize the typed result; every failure
becomes its string rendering. -/
def Module.instantiate_value (m : Module IMsg IResp EMsg QMsg QResp Err) (msg : Value) :
    Except String Value :=
  match m.deserializeInstantiateMsg msg with
  | .error e => .error e.toString
  | .ok parsed =>
    match m.instantiate parsed with
    | .error e => .error (m.errToString e)
    | .ok res =>
      match m.serializeInstantiateResp res with
      | .error e => .error e.toString
      | .ok v => .ok v

/-- The blanket impl's `execute_value`: deserialize the payload, run the
typed transaction handler; failures become their string renderings. -/
def Module.execute_value (m : Module IMsg IResp EMsg QMsg QResp Err) (msg : Value) :
    Except String CwResponse :=
  match m.deserializeExecuteMsg msg with
  | .error e => .error e.toString
  | .ok parsed =>
    match m.execute parsed with
    | .error e => .error (m.errToString e)
    | .ok res => .ok res

/-- The blanket impl's `query_value`: deserialize the payload, run the typed
query handler, and `to_binary` the typed response; failures become generic
`StdError`s (serialization failure a serialize error, as in `to_binary`). -/
def Module.query_value (m : Module IMsg IResp EMsg QMsg QResp Err) (msg : Value) :
    Except StdError Binary :=
  match m.deserializeQueryMsg msg with
  | .error e => .error (.genericErr e.toString)
  | .ok parsed =>
    match m.query parsed with
    | .error e => .error (.genericErr (m.errToString e))
    | .ok res =>
      match m.serializeQueryResp res with
      | .error e => .error (.serializeErr e.msg)
      | .ok v => .ok (encodeJson v)

/-! The registry + dispatcher of `manager.rs`. -/

/-- A dynamically typed module handle as the dispatcher consumes it
(`Rc<RefCell<dyn GenericModule>>`): the three untyped operations.
`instantiate_value` and `execute_value` produce the crate's `Response`
(the dispatcher folds or converts it); `query_value` produces the
serialized query response. -/
structure GenericModule where
  instantiate_value : Value → Except String GlueResponse
  execute_value : Value → Except String GlueResponse
  query_value : Value → Except StdError Binary

/-- First-match lookup in the module map (`HashMap::get`; an association
list models the map, whose keys are unique). -/
def hmGet (m : List (String × GenericModule)) (k : String) : Option GenericModule :=
  match m with
  | [] => none
  | (k', v) :: rest => if k' = k then some v else hmGet rest k

/-- `HashMap::insert`: store the value under the key, replacing and
returning any previous value for that key. -/
def hmInsert (m : List (String × GenericModule)) (k : String) (v : GenericModule) :
    Option GenericModule × List (String × GenericModule) :=
  match m with
  | [] => (none, [(k, v)])
  | (k', v') :: rest =>
    if k' = k then (some v', (k, v) :: rest)
    else
      let (old, rest') := hmInsert rest k v
      (old, (k', v') :: rest')

/-- `Manager`: the name → module-handle registry. -/
structure Manager where
  modules : List (String × GenericModule)

/-- `Manager::new()`: no modules registered. -/
def Manager.new : Manager := ⟨[]⟩

/-- `Manager::register`: insert the module into the map, then report
`ModuleAlreadyRegistered` exactly when the insert displaced a previous
entry (note the insert has already happened when the error is returned). -/
def Manager.register (mgr : Manager) (name : String) (module : GenericModule) :
    Except Error Unit × Manager :=
  let (old, modules') := hmInsert mgr.modules name module
  match old with
  | some _ => (.error (.moduleAlreadyRegistered name), ⟨modules'⟩)
  | none => (.ok (), ⟨modules'⟩)

/-- `Manager::execute`: the envelope must be an object with exactly one
entry; resolve the module, run its `execute_value`, convert the crate
response via `From`; errors are `Debug`-formatted strings. -/
def Manager.execute (mgr : Manager) (msg : Value) : Except String CwResponse × Manager :=
  match msg with
  | .obj vals =>
    match vals with
    | [(module_name, payload)] =>
      match hmGet mgr.modules module_name with
      | some module => ((module.execute_value payload).map responseToCw, mgr)
      | none => (.error (Error.debugFmt (.notFoundError module_name)), mgr)
    | _ => (.error (Error.debugFmt (.parseError (some "too many module payloads"))), mgr)
  | _ => (.error (Error.debugFmt (.parseError none)), mgr)

/-- `Manager::query`: the envelope must be an object with exactly one
entry; resolve the module and run its `query_value` through a shared
borrow; errors are `Display`-formatted into generic `StdError`s. -/
def Manager.query (mgr : Manager) (msg : Value) : Except StdError Binary × Manager :=
  match msg with
  | .obj vals =>
    match vals with
    | [(module_name, payload)] =>
      match hmGet mgr.modules module_name with
      | some module => (module.query_value payload, mgr)
      | none => (.error (.genericErr (Error.display (.notFoundError module_name))), mgr)
    | _ => (.error (.genericErr (Error.display (.parseError (some "too many module payloads")))), mgr)
  | _ => (.error (.genericErr (Error.display (.parseError none))), mgr)

/-- The body of `Manager::instantiate`'s loop: resolve each named module in
envelope order, run its `instantiate_value`, and fold the response into the
aggregator; a missing name or a module failure aborts the whole call. -/
def instantiateFold (mgr : Manager) (agg : Aggregator) :
    List (String × Value) → Except String Aggregator
  | [] => .ok agg
  | (module_name, payload) :: rest =>
    match hmGet mgr.modules module_name with
    | some module =>
      match module.instantiate_value payload with
      | .ok resp => instantiateFold mgr (agg.fold_response module_name resp) rest
      | .error e => .error e
    | none => .error (Error.debugFmt (.notFoundError module_name))

/-- `Manager::instantiate`: the envelope is an object with any number of
entries; fold every named module's response into a fresh aggregator and
emit the aggregate. -/
def Manager.instantiate (mgr : Manager) (msgs : Value) : Except String CwResponse × Manager :=
  match msgs with
  | .obj vals => ((instantiateFold mgr Aggregator.new vals).map Aggregator.aggregate, mgr)
  | _ => (.error (Error.debugFmt (.parseError none)), mgr)

/-! Concrete fixtures used by closed demonstrations and witnesses. -/

/-- A crate response whose every sequence holds one `tag`-labelled entry and
whose data is the string `tag`. -/
def stubResponse (tag : String) : GlueResponse :=
  ⟨⟨[⟨.str tag⟩], [⟨tag, tag⟩], [⟨tag, [⟨tag, tag⟩]⟩], none⟩, .str tag⟩

/-- A module handle that always succeeds, answering with `tag`-labelled
side effects and data (queries answer `tag` directly). -/
def stubModule (tag : String) : GenericModule :=
  { instantiate_value := fun _ => .ok (stubResponse tag)
    execute_value := fun _ => .ok (stubResponse tag)
    query_value := fun _ => .ok tag }

/-- A module handle whose every operation fails with the bare detail string
`boom` — exactly what the bridge produces for a typed handler failing with
a `String` error `boom` (see `typedBoom`). -/
def boomModule : GenericModule :=
  { instantiate_value := fun _ => .error "boom"
    execute_value := fun _ => .error "boom"
    query_value := fun _ => .error (.genericErr "boom") }

/-- A typed module whose payloads deserialize trivially and whose every
handler fails with the error string `boom` (its `Display` is itself). -/
def typedBoom : Module Unit Unit Unit Unit Unit String :=
  { deserializeInstantiateMsg := fun _ => .ok ()
    serializeInstantiateResp := fun _ => .ok .null
    deserializeExecuteMsg := fun _ => .ok ()
    deserializeQueryMsg := fun _ => .ok ()
    serializeQueryResp := fun _ => .ok .null
    errToString := fun s => s
    instantiate := fun _ => .error "boom"
    execute := fun _ => .error "boom"
    query := fun _ => .error "boom" }

/-- A typed module whose every payload fails to deserialize (with serde's
characteristic message), while the handlers themselves would succeed. -/
def undecodableModule : Module Unit Unit Unit Unit Unit String :=
  { deserializeInstantiateMsg := fun _ => .error ⟨"invalid type: null, expected struct Msg"⟩
    serializeInstantiateResp := fun _ => .ok .null
    deserializeExecuteMsg := fun _ => .error ⟨"invalid type: null, expected struct Msg"⟩
    deserializeQueryMsg := fun _ => .error ⟨"invalid type: null, expected struct Msg"⟩
    serializeQueryResp := fun _ => .ok .null
    errToString := fun s => s
    instantiate := fun _ => .ok ()
    execute := fun _ => .ok CwResponse.new
    query := fun _ => .ok () }

/-- Fold a whole list of named responses into a fresh aggregator, the way
`Manager::instantiate` does across a multi-module envelope. -/
def foldAll (L : List (String × GlueResponse)) : Aggregator :=
  L.foldl (fun a p => a.fold_response p.1 p.2) Aggregator.new

/-! General lemmas about the embedded operations. -/

/-- Inserting into the data map never leaves it empty. -/
theorem jmapInsert_ne_nil (m : List (String × Value)) (k : String) (v : Value) :
    jmapInsert m k v ≠ [] := by
  cases m with
  | nil => simp [jmapInsert]
  | cons hd tl =>
    obtain ⟨k', v'⟩ := hd
    unfold jmapInsert
    split
    · simp
    · split <;> simp

/-- Folding responses can only grow a non-empty data map, never empty it. -/
theorem foldl_fold_response_data_ne_nil (L : List (String × GlueResponse)) :
    ∀ a : Aggregator, a.data ≠ [] →
      (L.foldl (fun a p => a.fold_response p.1 p.2) a).data ≠ [] := by
  induction L with
  | nil => intro a h; exact h
  | cons p rest ih =>
    intro a _
    exact ih (a.fold_response p.1 p.2) (jmapInsert_ne_nil _ _ _)

/-- When every entry of a prefix resolves and succeeds, the instantiate
loop walks past it, and the first unregistered name aborts the whole loop
with the `Debug`-formatted `NotFoundError` — whatever has been folded so
far and whatever entries follow. -/
theorem instantiateFold_missing (mgr : Manager) (pre : List (String × Value))
    (name : String) (payload : Value) (post : List (String × Value))
    (hpre : ∀ p ∈ pre, ∃ m r, hmGet mgr.modules p.1 = some m ∧ m.instantiate_value p.2 = .ok r)
    (hmiss : hmGet mgr.modules name = none) :
    ∀ agg : Aggregator,
      instantiateFold mgr agg (pre ++ (name, payload) :: post)
        = .error (Error.debugFmt (.notFoundError name)) := by
  induction pre with
  | nil =>
    intro agg
    simp [instantiateFold, hmiss]
  | cons p rest ih =>
    intro agg
    obtain ⟨m, r, hget, hok⟩ := hpre p (by simp)
    obtain ⟨pn, pp⟩ := p
    simp only [List.cons_append, instantiateFold, hget, hok]
    exact ih (fun q hq => hpre q (by simp [hq])) _

/-! Round-trip lemmas for the JSON codec: decimal digits. -/

/-- The code of a decimal digit character. -/
theorem decDigit_toNat (d : Nat) (h : d < 10) : (decDigit d).toNat = 48 + d := by
  interval_cases d <;> decide

/-- Decimal digit characters pass the digit test. -/
theorem decDigit_isDigit (d : Nat) (h : d < 10) : isDigitC (decDigit d) = true := by
  interval_cases d <;> decide

/-- The accumulator of `natChars` only ever trails on the right. -/
theorem natChars_shift (n : Nat) : ∀ acc, natChars n acc = natChars n [] ++ acc := by
  induction n using Nat.strong_induction_on with
  | _ n ih =>
    intro acc
    conv_lhs => rw [natChars.eq_def]
    conv_rhs => rw [natChars.eq_def]
    split
    · simp
    · rename_i h
      rw [ih (n / 10) (by omega) (decDigit (n % 10) :: acc),
        ih (n / 10) (by omega) (decDigit (n % 10) :: [])]
      simp

/-- Peeling the least significant digit off the back of `natChars`. -/
theorem natChars_snoc (n : Nat) :
    natChars n [] = (if n < 10 then [] else natChars (n / 10) []) ++ [decDigit (n % 10)] := by
  conv_lhs => rw [natChars.eq_def]
  by_cases h : n < 10
  · simp [h, Nat.mod_eq_of_lt h]
  · simp only [if_neg h]
    exact natChars_shift (n / 10) [decDigit (n % 10)]

/-- Every character of a rendered natural number is a digit. -/
theorem natChars_digits (n : Nat) : ∀ c ∈ natChars n [], isDigitC c = true := by
  induction n using Nat.strong_induction_on with
  | _ n ih =>
    intro c hc
    rw [natChars_snoc] at hc
    rcases List.mem_append.mp hc with h | h
    · split at h
      · simp at h
      · exact ih (n / 10) (by omega) c h
    · rw [List.mem_singleton] at h
      subst h
      exact decDigit_isDigit _ (Nat.mod_lt _ (by omega))

/-- A rendered natural number is never empty. -/
theorem natChars_ne_nil (n : Nat) : natChars n [] ≠ [] := by
  rw [natChars_snoc]; simp

/-- A rendered natural number starts with a digit. -/
theorem natChars_head (n : Nat) :
    ∃ c t, natChars n [] = c :: t ∧ isDigitC c = true := by
  match h : natChars n [] with
  | [] => exact absurd h (natChars_ne_nil n)
  | c :: t => exact ⟨c, t, rfl, natChars_digits n c (h ▸ List.mem_cons_self ..)⟩

/-- `readNat` consumes exactly a digit run, folding its value onto the
accumulator, and stops at the delimiter. -/
theorem readNat_run (ds : List Char) (hds : ∀ c ∈ ds, isDigitC c = true) :
    ∀ (rest : List Char), numStop rest = true → ∀ acc,
      readNat (ds ++ rest) acc
        = (ds.foldl (fun a c => a * 10 + (c.toNat - 48)) acc, rest) := by
  induction ds with
  | nil =>
    intro rest hrest acc
    simp only [List.nil_append, List.foldl_nil]
    cases rest with
    | nil => rfl
    | cons c t =>
      simp only [numStop, Bool.not_eq_true'] at hrest
      simp [readNat, hrest]
  | cons c t ih =>
    intro rest hrest acc
    have hc := hds c (by simp)
    simp [readNat, hc, ih (fun x hx => hds x (by simp [hx])) rest hrest]

/-- Folding the rendered digits of `n` from zero recovers `n`. -/
theorem foldl_natChars (n : Nat) :
    (natChars n []).foldl (fun a c => a * 10 + (c.toNat - 48)) 0 = n := by
  induction n using Nat.strong_induction_on with
  | _ n ih =>
    rw [natChars_snoc, List.foldl_append]
    by_cases h : n < 10
    · simp only [if_pos h, List.foldl_nil, List.foldl_cons]
      rw [decDigit_toNat _ (Nat.mod_lt _ (by omega))]
      omega
    · simp only [if_neg h, List.foldl_cons, List.foldl_nil]
      rw [ih (n / 10) (by omega), decDigit_toNat _ (Nat.mod_lt _ (by omega))]
      omega

/-- A digit character is neither a sign nor any JSON structural starter or
closer the parser discriminates on. -/
theorem isDigit_ne (c : Char) (h : isDigitC c = true) :
    c ≠ 'n' ∧ c ≠ 't' ∧ c ≠ 'f' ∧ c ≠ '"' ∧ c ≠ '[' ∧ c ≠ lbraceC ∧
    c ≠ ']' ∧ c ≠ rbraceC ∧ c ≠ '-' := by
  have hgen : ∀ x : Char, isDigitC x = false → c ≠ x := by
    intro x hx he
    rw [he, hx] at h
    exact Bool.false_ne_true h
  exact ⟨hgen _ rfl, hgen _ rfl, hgen _ rfl, hgen _ rfl, hgen _ rfl,
    hgen _ rfl, hgen _ rfl, hgen _ rfl, hgen _ rfl⟩

/-- `readInt` inverts `intChars` whenever the remainder cannot extend the
number. -/
theorem readInt_intChars (i : Int) (rest : List Char) (hr : numStop rest = true) :
    readInt (intChars i ++ rest) = some (i, rest) := by
  by_cases hi : i < 0
  · obtain ⟨c, t, hct, hc⟩ := natChars_head i.natAbs
    have harg : intChars i ++ rest = '-' :: (natChars i.natAbs [] ++ rest) := by
      simp [intChars, hi]
    rw [harg]
    simp only [readInt, if_pos rfl]
    rw [hct, List.cons_append]
    simp only [hc, if_pos]
    rw [← List.cons_append, ← hct,
      readNat_run _ (natChars_digits _) rest hr 0, foldl_natChars]
    have : -((i.natAbs : Nat) : Int) = i := by omega
    rw [this]
  · obtain ⟨c, t, hct, hc⟩ := natChars_head i.natAbs
    have harg : intChars i ++ rest = c :: (t ++ rest) := by
      simp [intChars, hi, hct]
    rw [harg]
    simp only [readInt]
    rw [if_neg (by simpa using (isDigit_ne c hc).2.2.2.2.2.2.2.2)]
    simp only [hc, if_pos]
    rw [← List.cons_append, ← hct,
      readNat_run _ (natChars_digits _) rest hr 0, foldl_natChars]
    have : ((i.natAbs : Nat) : Int) = i := by omega
    rw [this]

/-! Round-trip lemmas for the JSON codec: string escapes. -/

/-- `readHex` inverts the lowercase hex digit table. -/
theorem readHex_hexDigit (d : Nat) (h : d < 16) : readHex (hexDigitLc d) = some d := by
  interval_cases d <;> decide

/-- Reading one escaped character undoes `escChar`. -/
theorem readStrBody_esc (c : Char) (acc rest : List Char) :
    readStrBody acc (escChar c ++ rest) = readStrBody (c :: acc) rest := by
  rw [escChar]
  split_ifs with h1 h2 h3 h4 h5 h6 h7 h8
  · subst h1; rfl
  · subst h2; rfl
  · subst h3; rfl
  · subst h4; rfl
  · subst h5; rfl
  · subst h6; rfl
  · subst h7; rfl
  · have hhi := readHex_hexDigit (c.toNat / 16) (by omega)
    have hlo := readHex_hexDigit (c.toNat % 16) (by omega)
    simp only [List.cons_append, readStrBody, hhi, hlo]
    have harith : ((0 * 16 + 0) * 16 + c.toNat / 16) * 16 + c.toNat % 16 = c.toNat := by
      omega
    rw [show readHex '0' = some 0 from rfl]
    simp only [List.nil_append]
    have hofn : Char.ofNat (((0 * 16 + 0) * 16 + c.toNat / 16) * 16 + c.toNat % 16) = c := by
      rw [harith, Char.ofNat_toNat]
    rw [hofn, show ([] : List Char).append rest = rest from rfl]
  · simp only [List.cons_append, List.nil_append]
    conv_lhs => rw [readStrBody.eq_def]
    split
    · rename_i heq
      rw [List.cons.injEq] at heq
      exact absurd heq.1 h1
    · rename_i heq
      rw [List.cons.injEq] at heq
      exact absurd heq.1 h2
    · rename_i heq
      rw [List.cons.injEq] at heq
      exact absurd heq.1 h2
    · rename_i x hx heq
      rw [List.cons.injEq] at heq
      obtain ⟨rfl, rfl⟩ := heq
      rfl
    · rename_i heq
      exact absurd heq (by simp)

/-- Reading an escaped character run stops exactly at the closing quote
and recovers the original characters. -/
theorem readStrBody_run (cs : List Char) : ∀ (acc rest : List Char),
    readStrBody acc (cs.flatMap escChar ++ '"' :: rest)
      = some (String.mk (acc.reverse ++ cs), rest) := by
  induction cs with
  | nil =>
    intro acc rest
    simp [readStrBody]
  | cons c t ih =>
    intro acc rest
    rw [List.flatMap_cons, List.append_assoc, readStrBody_esc, ih]
    simp

/-! Round-trip lemmas for the JSON codec: the sorted field map. -/

/-- Inserting a key greater than every present key appends at the end. -/
theorem jmapInsert_last (m : List (String × Value)) (k : String) (v : Value)
    (h : ∀ kv ∈ m, kv.1 < k) : jmapInsert m k v = m ++ [(k, v)] := by
  induction m with
  | nil => rfl
  | cons hd tl ih =>
    obtain ⟨k', v'⟩ := hd
    have hk : k' < k := h (k', v') (by simp)
    rw [jmapInsert, if_neg (lt_asymm hk), if_neg (ne_of_gt hk),
      ih (fun kv hkv => h kv (by simp [hkv]))]
    simp

/-- A sorted field list stays sorted on its tail, and its head key is
below every later key. -/
theorem keysSorted_cons (k : String) (v : Value) (fs : List (String × Value))
    (h : keysSorted ((k, v) :: fs) = true) :
    keysSorted fs = true ∧ ∀ kv ∈ fs, k < kv.1 := by
  induction fs generalizing k v with
  | nil => exact ⟨rfl, by simp⟩
  | cons hd tl ih =>
    obtain ⟨k2, v2⟩ := hd
    rw [keysSorted, Bool.and_eq_true, decide_eq_true_eq] at h
    obtain ⟨hlt, hs⟩ := h
    obtain ⟨_, hall⟩ := ih k2 v2 hs
    refine ⟨hs, ?_⟩
    intro kv hkv
    rcases List.mem_cons.mp hkv with h | h
    · subst h; exact hlt
    · exact lt_trans hlt (hall kv h)

/-- Folding a strictly sorted field list into an accumulator whose keys
are all smaller just appends it. -/
theorem foldl_jmapInsert_sorted (fs : List (String × Value)) :
    ∀ pre : List (String × Value), keysSorted fs = true →
      (∀ kv ∈ pre, ∀ kv2 ∈ fs, kv.1 < kv2.1) →
      fs.foldl (fun m kv => jmapInsert m kv.1 kv.2) pre = pre ++ fs := by
  induction fs with
  | nil => intro pre _ _; simp
  | cons hd tl ih =>
    intro pre hs hlt
    obtain ⟨k, v⟩ := hd
    simp only [List.foldl_cons]
    rw [jmapInsert_last pre k v (fun kv hkv => hlt kv hkv (k, v) (by simp)),
      ih (pre ++ [(k, v)]) (keysSorted_cons k v tl hs).1 ?_]
    · simp
    · intro kv hkv kv2 hkv2
      rcases List.mem_append.mp hkv with h | h
      · exact hlt kv h kv2 (by simp [hkv2])
      · rw [List.mem_singleton] at h
        subst h
        exact (keysSorted_cons k v tl hs).2 kv2 hkv2

/-- `collectFields` (the `BTreeMap` collection) is the identity on a
strictly sorted field list — which the writer's output always is for
canonical values. -/
theorem collectFields_sorted (fs : List (String × Value)) (hs : keysSorted fs = true) :
    collectFields fs = fs := by
  rw [collectFields, foldl_jmapInsert_sorted fs [] hs (by simp)]
  simp

/-! Round-trip lemmas for the JSON codec: heads of rendered values. -/

/-- A rendered value is nonempty and starts with a character that closes
neither an array nor an object. -/
theorem valChars_head (v : Value) :
    ∃ c t, valChars v = c :: t ∧ c ≠ ']' ∧ c ≠ rbraceC := by
  cases v with
  | null => exact ⟨'n', _, rfl, by decide, by decide⟩
  | bool b =>
    cases b with
    | true => exact ⟨'t', _, rfl, by decide, by decide⟩
    | false => exact ⟨'f', _, rfl, by decide, by decide⟩
  | str s => exact ⟨'"', _, rfl, by decide, by decide⟩
  | arr es => exact ⟨'[', _, rfl, by decide, by decide⟩
  | obj fs => exact ⟨lbraceC, _, rfl, by decide, by decide⟩
  | num i =>
    by_cases hi : i < 0
    · refine ⟨'-', natChars i.natAbs [], ?_, by decide, by decide⟩
      simp [valChars, intChars, hi]
    · obtain ⟨c, t, hct, hc⟩ := natChars_head i.natAbs
      have hne := isDigit_ne c hc
      refine ⟨c, t, ?_, hne.2.2.2.2.2.2.1, hne.2.2.2.2.2.2.2.1⟩
      simp [valChars, intChars, hi, hct]

/-! Round-trip lemmas for the JSON codec: the main mutual induction. -/

/-- A nonempty rendered element run starts with its first value's head. -/
theorem arrChars_cons_head (v : Value) (vs : List Value) :
    ∃ d Y, arrChars (v :: vs) = d :: Y ∧ d ≠ ']' ∧ d ≠ rbraceC := by
  obtain ⟨d, t, hdt, hd1, hd2⟩ := valChars_head v
  cases vs with
  | nil => exact ⟨d, t, by simp [arrChars, hdt], hd1, hd2⟩
  | cons w t' =>
    exact ⟨d, t ++ ',' :: arrChars (w :: t'), by simp [arrChars, hdt], hd1, hd2⟩

/-- A nonempty rendered field run starts with the key's opening quote. -/
theorem objChars_cons_head (k : String) (v : Value) (fs : List (String × Value)) :
    ∃ Y, objChars ((k, v) :: fs) = '"' :: Y := by
  cases fs with
  | nil =>
    exact ⟨(k.data.flatMap escChar ++ ['"']) ++ ':' :: valChars v,
      by simp [objChars, strChars]⟩
  | cons f t =>
    exact ⟨(k.data.flatMap escChar ++ ['"'])
        ++ ':' :: (valChars v ++ ',' :: objChars (f :: t)),
      by simp [objChars, strChars]⟩

/-- One-step reduction of the reader on a bracket followed by a non-empty
tail (definitional). -/
theorem readVal_arr_cons (f : Nat) (d : Char) (r : List Char) :
    readVal (f + 1) ('[' :: d :: r)
      = (if d = ']' then some (.arr [], r)
         else
           match readItems f (d :: r) with
           | some (vs, r'') => some (.arr vs, r'')
           | none => none) := rfl

/-- One-step reduction of the reader on a brace followed by a non-empty
tail (definitional). -/
theorem readVal_obj_cons (f : Nat) (d : Char) (r : List Char) :
    readVal (f + 1) (lbraceC :: d :: r)
      = (if d = rbraceC then some (.obj [], r)
         else
           match readFields f (d :: r) with
           | some (fs, r'') => some (.obj (collectFields fs), r'')
           | none => none) := rfl

mutual

/-- Reading the rendering of a canonical value recovers it exactly,
for any fuel above the rendering's length and any remainder that cannot
extend a number. -/
theorem readVal_valChars : ∀ (v : Value) (fuel : Nat) (rest : List Char),
    canonical v = true → (valChars v).length < fuel → numStop rest = true →
    readVal fuel (valChars v ++ rest) = some (v, rest)
  | .null, fuel, rest, _, hf, _ => by
    cases fuel with
    | zero => exact absurd hf (Nat.not_lt_zero _)
    | succ f => simp [valChars, readVal]
  | .bool b, fuel, rest, _, hf, _ => by
    cases fuel with
    | zero => exact absurd hf (Nat.not_lt_zero _)
    | succ f => cases b <;> simp [valChars, readVal]
  | .num i, fuel, rest, _, hf, hr => by
    cases fuel with
    | zero => exact absurd hf (Nat.not_lt_zero _)
    | succ f =>
      by_cases hi : i < 0
      · have harg : valChars (.num i) ++ rest = '-' :: (natChars i.natAbs [] ++ rest) := by
          simp [valChars, intChars, hi]
        rw [harg]
        simp only [readVal]
        rw [if_neg (by decide), if_neg (by decide), if_neg (by decide), if_neg (by decide),
          if_neg (by decide), if_neg (by decide), if_pos (by decide)]
        rw [show ('-' :: (natChars i.natAbs [] ++ rest)) = intChars i ++ rest from by
          simp [intChars, hi]]
        rw [readInt_intChars i rest hr]
      · obtain ⟨c, t, hct, hc⟩ := natChars_head i.natAbs
        obtain ⟨hn, ht, hff, hq, hbk, hbc, _, _, hm⟩ := isDigit_ne c hc
        have harg : valChars (.num i) ++ rest = c :: (t ++ rest) := by
          simp [valChars, intChars, hi, hct]
        rw [harg]
        simp only [readVal]
        rw [if_neg hn, if_neg ht, if_neg hff, if_neg hq, if_neg hbk, if_neg hbc,
          if_pos (by simp [hc])]
        rw [show (c :: (t ++ rest)) = intChars i ++ rest from by
          simp [intChars, hi, hct]]
        rw [readInt_intChars i rest hr]
  | .str s, fuel, rest, _, hf, _ => by
    cases fuel with
    | zero => exact absurd hf (Nat.not_lt_zero _)
    | succ f =>
      have harg : valChars (.str s) ++ rest
          = '"' :: (s.data.flatMap escChar ++ '"' :: rest) := by
        simp [valChars, strChars]
      rw [harg]
      simp only [readVal]
      rw [if_neg (by decide), if_neg (by decide), if_neg (by decide), if_pos (by decide)]
      rw [readStrBody_run s.data [] rest]
      rfl
  | .arr [], fuel, rest, _, hf, _ => by
    cases fuel with
    | zero => exact absurd hf (Nat.not_lt_zero _)
    | succ f => simp [valChars, arrChars, readVal]
  | .arr (v :: vs), fuel, rest, hc, hf, _ => by
    cases fuel with
    | zero => exact absurd hf (Nat.not_lt_zero _)
    | succ f =>
      rw [canonical] at hc
      have hlen : (valChars (.arr (v :: vs))).length = (arrChars (v :: vs)).length + 2 := by
        simp [valChars]
      obtain ⟨d, Y, hdY, hd1, _⟩ := arrChars_cons_head v vs
      have harg : valChars (.arr (v :: vs)) ++ rest = '[' :: d :: (Y ++ ']' :: rest) := by
        simp [valChars, hdY]
      rw [harg, readVal_arr_cons, if_neg hd1, ← List.cons_append, ← hdY,
        readItems_arrChars v vs f rest hc (by omega)]
  | .obj [], fuel, rest, _, hf, _ => by
    cases fuel with
    | zero => exact absurd hf (Nat.not_lt_zero _)
    | succ f =>
      have harg : valChars (.obj []) ++ rest = lbraceC :: rbraceC :: rest := by
        simp [valChars, objChars]
      rw [harg, readVal_obj_cons, if_pos rfl]
  | .obj ((k, v) :: fs), fuel, rest, hc, hf, _ => by
    cases fuel with
    | zero => exact absurd hf (Nat.not_lt_zero _)
    | succ f =>
      rw [canonical, Bool.and_eq_true] at hc
      have hlen : (valChars (.obj ((k, v) :: fs))).length
          = (objChars ((k, v) :: fs)).length + 2 := by
        simp [valChars]
      obtain ⟨Y, hY⟩ := objChars_cons_head k v fs
      have harg : valChars (.obj ((k, v) :: fs)) ++ rest
          = lbraceC :: '"' :: (Y ++ rbraceC :: rest) := by
        simp [valChars, hY]
      rw [harg, readVal_obj_cons, if_neg (by decide), ← List.cons_append, ← hY,
        readFields_objChars k v fs f rest hc.2 (by omega)]
      simp [collectFields_sorted _ hc.1]
  termination_by v _ _ _ _ _ => sizeOf v

/-- Reading the rendering of a nonempty canonical element run up to the
closing bracket recovers the elements. -/
theorem readItems_arrChars : ∀ (v : Value) (vs : List Value) (fuel : Nat) (rest : List Char),
    canonicalItems (v :: vs) = true → (arrChars (v :: vs)).length + 1 < fuel →
    readItems fuel (arrChars (v :: vs) ++ ']' :: rest) = some (v :: vs, rest)
  | v, [], fuel, rest, hc, hf => by
    cases fuel with
    | zero => exact absurd hf (Nat.not_lt_zero _)
    | succ f =>
      rw [canonicalItems, Bool.and_eq_true] at hc
      have hlen : (arrChars [v]).length = (valChars v).length := by simp [arrChars]
      have hv := readVal_valChars v f (']' :: rest) hc.1 (by omega) rfl
      have harg : arrChars [v] ++ ']' :: rest = valChars v ++ ']' :: rest := by
        simp [arrChars]
      rw [harg]
      simp only [readItems]
      simp [hv]
  | v, w :: t, fuel, rest, hc, hf => by
    cases fuel with
    | zero => exact absurd hf (Nat.not_lt_zero _)
    | succ f =>
      rw [canonicalItems, Bool.and_eq_true] at hc
      have hlen : (arrChars (v :: w :: t)).length
          = (valChars v).length + 1 + (arrChars (w :: t)).length := by
        simp [arrChars]
        omega
      have hv := readVal_valChars v f (',' :: (arrChars (w :: t) ++ ']' :: rest)) hc.1
        (by omega) rfl
      have hrec := readItems_arrChars w t f rest hc.2 (by omega)
      have harg : arrChars (v :: w :: t) ++ ']' :: rest
          = valChars v ++ ',' :: (arrChars (w :: t) ++ ']' :: rest) := by
        simp [arrChars]
      rw [harg]
      simp only [readItems]
      simp [hv, hrec]
  termination_by v vs _ _ _ _ => sizeOf v + sizeOf vs

/-- Reading the rendering of a nonempty canonical field run up to the
closing brace recovers the fields in rendered order. -/
theorem readFields_objChars :
    ∀ (k : String) (v : Value) (fs : List (String × Value)) (fuel : Nat) (rest : List Char),
    canonicalFields ((k, v) :: fs) = true → (objChars ((k, v) :: fs)).length + 1 < fuel →
    readFields fuel (objChars ((k, v) :: fs) ++ rbraceC :: rest) = some ((k, v) :: fs, rest)
  | k, v, [], fuel, rest, hc, hf => by
    cases fuel with
    | zero => exact absurd hf (Nat.not_lt_zero _)
    | succ f =>
      rw [canonicalFields, Bool.and_eq_true] at hc
      have hlen : (objChars [(k, v)]).length
          = (strChars k).length + 1 + (valChars v).length := by
        simp [objChars]
        omega
      have hsk : (strChars k).length = (k.data.flatMap escChar).length + 2 := by
        simp [strChars]
      have hv := readVal_valChars v f (rbraceC :: rest) hc.1 (by omega) rfl
      have harg : objChars [(k, v)] ++ rbraceC :: rest
          = '"' :: (k.data.flatMap escChar ++ '"' :: (':' :: (valChars v ++ rbraceC :: rest))) := by
        simp [objChars, strChars]
      rw [harg]
      simp only [readFields]
      rw [readStrBody_run k.data [] _]
      have hne : rbraceC ≠ ',' := by decide
      simp [hv, hne, show String.mk k.data = k from rfl]
  | k, v, (k2, v2) :: fs, fuel, rest, hc, hf => by
    cases fuel with
    | zero => exact absurd hf (Nat.not_lt_zero _)
    | succ f =>
      rw [canonicalFields, Bool.and_eq_true] at hc
      have hlen : (objChars ((k, v) :: (k2, v2) :: fs)).length
          = (strChars k).length + 1 + (valChars v).length + 1
            + (objChars ((k2, v2) :: fs)).length := by
        simp [objChars]
        omega
      have hsk : (strChars k).length = (k.data.flatMap escChar).length + 2 := by
        simp [strChars]
      have hv := readVal_valChars v f (',' :: (objChars ((k2, v2) :: fs) ++ rbraceC :: rest))
        hc.1 (by omega) rfl
      have hrec := readFields_objChars k2 v2 fs f rest hc.2 (by omega)
      have harg : objChars ((k, v) :: (k2, v2) :: fs) ++ rbraceC :: rest
          = '"' :: (k.data.flatMap escChar ++ '"' :: (':' :: (valChars v
              ++ ',' :: (objChars ((k2, v2) :: fs) ++ rbraceC :: rest)))) := by
        simp [objChars, strChars]
      rw [harg]
      simp only [readFields]
      rw [readStrBody_run k.data [] _]
      simp [hv, hrec, show String.mk k.data = k from rfl]
  termination_by k v fs _ _ _ _ => sizeOf v + sizeOf fs

end

/-- The decoder inverts the writer on every canonical value: the
round-trip of the spec's serialized data payload. -/
theorem decodeJson_encodeJson (v : Value) (h : canonical v = true) :
    decodeJson (encodeJson v) = some v := by
  rw [decodeJson, encodeJson]
  have hdata : (String.mk (valChars v)).data = valChars v := rfl
  rw [hdata]
  have hrv := readVal_valChars v ((valChars v).length + 1) [] h (by omega) rfl
  rw [List.append_nil] at hrv
  rw [hrv]

/-! The claims. -/

/-- C1: the claim says a second `register` under an already-registered name
returns `AlreadyRegistered` and leaves the prior mapping untouched, the
first module remaining reachable.  The code inserts *before* checking
(`HashMap::insert` replaces and returns the old value), so the duplicate
registration does return the error yet silently replaces the module: after
the two registrations below, the handle reachable under `"A"` answers
queries as the second module, not the first. -/
theorem register_duplicate_overwrites :
    (Manager.new.register "A" (stubModule "modA")).1 = .ok () ∧
    ((Manager.new.register "A" (stubModule "modA")).2.register "A" (stubModule "modB")).1
      = .error (.moduleAlreadyRegistered "A") ∧
    (hmGet ((Manager.new.register "A" (stubModule "modA")).2.register "A"
        (stubModule "modB")).2.modules "A").map (fun m => m.query_value .null)
      = some (.ok "modB") ∧
    (Except.ok ("modB" : Binary) : Except StdError Binary) ≠ .ok ("modA" : Binary) := by
  refine ⟨rfl, rfl, rfl, by simp⟩

/-- C2 counterexample: fold a single module whose data value is `Null` into
a fresh aggregator; the claim says the aggregated response then carries no
data field, but `aggregate` checks only that the internal map is non-empty
(and `fold_response` stores null entries too), so a data payload is
emitted. -/
theorem aggregate_all_null_still_emits_data :
    ((Aggregator.new.fold_response "A" GlueResponse.new).aggregate).data ≠ none := by
  simp [Aggregator.new, Aggregator.fold_response, Aggregator.aggregate, jmapInsert,
    CwResponse.new, GlueResponse.new]

/-- C2 amended: the finalize step emits a data payload if and only if at
least one module has been folded (the internal data map is non-empty),
regardless of whether any stored data value is non-null; only with no
modules folded does the response carry no data field. -/
theorem aggregate_data_iff_folded (L : List (String × GlueResponse)) :
    ((foldAll L).aggregate).data = none ↔ L = [] := by
  cases L with
  | nil => simp [foldAll, Aggregator.aggregate, Aggregator.new, CwResponse.new]
  | cons p rest =>
    have hne : ((rest.foldl (fun a p => a.fold_response p.1 p.2)
        (Aggregator.new.fold_response p.1 p.2)).data) ≠ [] :=
      foldl_fold_response_data_ne_nil rest _ (jmapInsert_ne_nil _ _ _)
    simp only [foldAll, List.foldl_cons, Aggregator.aggregate]
    rw [if_neg (by simpa using hne)]
    simp

/-- C3: when an instantiate envelope is an object whose earlier entries all
resolve and succeed, the first unregistered name aborts the whole call with
the `NotFoundError` string alone: no aggregated partial response reaches
the caller, whatever was already folded, and the entries after the missing
name (`post`, unconstrained here, so no later module is ever consulted)
play no part. -/
theorem instantiate_missing_module_aborts (mgr : Manager) (pre : List (String × Value))
    (name : String) (payload : Value) (post : List (String × Value))
    (hpre : ∀ p ∈ pre, ∃ m r, hmGet mgr.modules p.1 = some m ∧ m.instantiate_value p.2 = .ok r)
    (hmiss : hmGet mgr.modules name = none) :
    (mgr.instantiate (.obj (pre ++ (name, payload) :: post))).1
      = .error (Error.debugFmt (.notFoundError name)) := by
  simp [Manager.instantiate, Except.map,
    instantiateFold_missing mgr pre name payload post hpre hmiss Aggregator.new]

/-- C3 witness: a registry holding only `"A"`, an envelope naming `"A"`
then `"Z"`: the hypotheses hold concretely and the call yields exactly the
`NotFoundError` string for `"Z"`. -/
theorem instantiate_missing_module_aborts_witness :
    (∀ p ∈ [(("A" : String), Value.null)],
      ∃ m r, hmGet (⟨[("A", stubModule "modA")]⟩ : Manager).modules p.1 = some m ∧
        m.instantiate_value p.2 = .ok r) ∧
    hmGet (⟨[("A", stubModule "modA")]⟩ : Manager).modules "Z" = none ∧
    ((⟨[("A", stubModule "modA")]⟩ : Manager).instantiate
        (.obj ([("A", .null)] ++ ("Z", .null) :: []))).1
      = .error (Error.debugFmt (.notFoundError "Z")) :=
  ⟨fun p hp => by
      simp at hp
      subst hp
      exact ⟨stubModule "modA", stubResponse "modA", rfl, rfl⟩,
    rfl,
    instantiate_missing_module_aborts ⟨[("A", stubModule "modA")]⟩ [("A", .null)] "Z" .null []
      (fun p hp => by
        simp at hp
        subst hp
        exact ⟨stubModule "modA", stubResponse "modA", rfl, rfl⟩)
      rfl⟩

/-- C4: an execute or query envelope that is an object with zero or with
two-or-more entries fails with the `ParseError` whose detail is `too many
module payloads` — the zero-entry case goes through the very same error
(execute renders it with `Debug`, query with `Display` inside a generic
`StdError`, as the dispatcher does). -/
theorem dispatch_rejects_wrong_key_count (mgr : Manager) (entries : List (String × Value))
    (h : entries.length ≠ 1) :
    (mgr.execute (.obj entries)).1
      = .error (Error.debugFmt (.parseError (some "too many module payloads"))) ∧
    (mgr.query (.obj entries)).1
      = .error (.genericErr (Error.display (.parseError (some "too many module payloads")))) := by
  match entries with
  | [] => exact ⟨rfl, rfl⟩
  | [e] => simp at h
  | a :: b :: t => exact ⟨rfl, rfl⟩

/-- C4 witness: the empty envelope and a two-entry envelope both produce
the `too many module payloads` parse error, on a fresh manager. -/
theorem dispatch_rejects_wrong_key_count_witness :
    (([] : List (String × Value)).length ≠ 1 ∧
      (Manager.new.execute (.obj [])).1
        = .error (Error.debugFmt (.parseError (some "too many module payloads")))) ∧
    (([("A", Value.null), ("B", Value.null)]).length ≠ 1 ∧
      (Manager.new.query (.obj [("A", .null), ("B", .null)])).1
        = .error (.genericErr (Error.display (.parseError (some "too many module payloads"))))) :=
  ⟨⟨by simp, (dispatch_rejects_wrong_key_count Manager.new [] (by simp)).1⟩,
    ⟨by simp, (dispatch_rejects_wrong_key_count Manager.new
      [("A", .null), ("B", .null)] (by simp)).2⟩⟩

/-- C5: in each bridge operation, a payload that fails to deserialize into
the module's declared message type aborts the operation with the
deserialization error's own string (query wraps it in a generic
`StdError`), before the typed handler is consulted: the result below does
not depend on the module's handlers at all, and the handlers — which in
`module.rs` receive the module by shared reference — are never invoked, so
no module state is mutated. -/
theorem bridge_deser_failure_aborts {IMsg IResp EMsg QMsg QResp Err : Type}
    (m : Module IMsg IResp EMsg QMsg QResp Err) (payload : Value) (e : SerdeError) :
    (m.deserializeInstantiateMsg payload = .error e →
      m.instantiate_value payload = .error e.toString) ∧
    (m.deserializeExecuteMsg payload = .error e →
      m.execute_value payload = .error e.toString) ∧
    (m.deserializeQueryMsg payload = .error e →
      m.query_value payload = .error (.genericErr e.toString)) := by
  refine ⟨fun h => ?_, fun h => ?_, fun h => ?_⟩ <;>
    simp [Module.instantiate_value, Module.execute_value, Module.query_value, h]

/-- C5 witness: a module whose payloads never deserialize aborts all three
operations with serde's message, its (would-be succeeding) handlers
untouched. -/
theorem bridge_deser_failure_aborts_witness :
    (undecodableModule.deserializeInstantiateMsg .null
        = .error ⟨"invalid type: null, expected struct Msg"⟩ ∧
      undecodableModule.instantiate_value .null
        = .error "invalid type: null, expected struct Msg") ∧
    (undecodableModule.deserializeExecuteMsg .null
        = .error ⟨"invalid type: null, expected struct Msg"⟩ ∧
      undecodableModule.execute_value .null
        = .error "invalid type: null, expected struct Msg") ∧
    (undecodableModule.deserializeQueryMsg .null
        = .error ⟨"invalid type: null, expected struct Msg"⟩ ∧
      undecodableModule.query_value .null
        = .error (.genericErr "invalid type: null, expected struct Msg")) :=
  ⟨⟨rfl, (bridge_deser_failure_aborts undecodableModule .null
      ⟨"invalid type: null, expected struct Msg"⟩).1 rfl⟩,
    ⟨rfl, (bridge_deser_failure_aborts undecodableModule .null
      ⟨"invalid type: null, expected struct Msg"⟩).2.1 rfl⟩,
    ⟨rfl, (bridge_deser_failure_aborts undecodableModule .null
      ⟨"invalid type: null, expected struct Msg"⟩).2.2 rfl⟩⟩

/-- C6 counterexample: a registered module `"A"` whose typed handlers fail
with the error string `boom` (the bridge turns that typed failure into the
bare string).  The caller of execute receives exactly `"boom"`, and the
caller of query exactly `generic_err "boom"` — not the `ExecutionError` /
`QueryError` rendering carrying the module's name that the claim
promises. -/
theorem module_error_carries_no_name :
    typedBoom.execute_value .null = .error "boom" ∧
    ((⟨[("A", boomModule)]⟩ : Manager).execute (.obj [("A", .null)])).1 = .error "boom" ∧
    ((⟨[("A", boomModule)]⟩ : Manager).query (.obj [("A", .null)])).1
      = .error (.genericErr "boom") ∧
    "boom" ≠ Error.debugFmt (.executionError "A" "boom") ∧
    "boom" ≠ Error.display (.executionError "A" "boom") ∧
    "boom" ≠ Error.display (.queryError "A" "boom") := by
  refine ⟨rfl, rfl, rfl, by decide, by decide, by decide⟩

/-- C6 amended: a typed handler failure is converted by the bridge to the
string its error value displays as — with no module name attached and
without the `ExecutionError`/`QueryError` constructors — query wrapping it
in a generic `StdError`; the dispatcher then hands that error to the caller
verbatim. -/
theorem module_error_propagated_verbatim {IMsg IResp EMsg QMsg QResp Err : Type}
    (m : Module IMsg IResp EMsg QMsg QResp Err) (msg : Value) (parsedE : EMsg)
    (parsedQ : QMsg) (err : Err) (mgr : Manager) (name : String) (gm : GenericModule)
    (payload : Value) (s : String) :
    (m.deserializeExecuteMsg msg = .ok parsedE → m.execute parsedE = .error err →
      m.execute_value msg = .error (m.errToString err)) ∧
    (m.deserializeQueryMsg msg = .ok parsedQ → m.query parsedQ = .error err →
      m.query_value msg = .error (.genericErr (m.errToString err))) ∧
    (hmGet mgr.modules name = some gm → gm.execute_value payload = .error s →
      (mgr.execute (.obj [(name, payload)])).1 = .error s) ∧
    (hmGet mgr.modules name = some gm → gm.query_value payload = .error (.genericErr s) →
      (mgr.query (.obj [(name, payload)])).1 = .error (.genericErr s)) := by
  refine ⟨fun h1 h2 => ?_, fun h1 h2 => ?_, fun h1 h2 => ?_, fun h1 h2 => ?_⟩ <;>
    simp [Module.execute_value, Module.query_value, Manager.execute, Manager.query,
      Except.map, h1, h2]

/-- C6 amended witness: the `boom` module again; both dispatch paths hand
the bare `boom` string (resp. its generic `StdError`) to the caller. -/
theorem module_error_propagated_verbatim_witness :
    (typedBoom.deserializeExecuteMsg .null = .ok () ∧
      typedBoom.execute () = .error "boom" ∧
      typedBoom.execute_value .null = .error (typedBoom.errToString "boom")) ∧
    (hmGet (⟨[("A", boomModule)]⟩ : Manager).modules "A" = some boomModule ∧
      boomModule.execute_value .null = .error "boom" ∧
      ((⟨[("A", boomModule)]⟩ : Manager).execute (.obj [("A", .null)])).1 = .error "boom") :=
  ⟨⟨rfl, rfl,
      (module_error_propagated_verbatim typedBoom .null () () "boom" Manager.new "A"
        boomModule .null "boom").1 rfl rfl⟩,
    ⟨rfl, rfl,
      (module_error_propagated_verbatim typedBoom .null () () "boom"
        ⟨[("A", boomModule)]⟩ "A" boomModule .null "boom").2.2.1 rfl rfl⟩⟩

/-- C7: instantiating two distinctly named registered modules that both
succeed yields an aggregated response whose event, attribute and message
sequences are the first module's followed by the second's, and whose data
payload is the serialized map keyed by exactly the two module names (in the
map's key order, as `serde_json::Map` stores them). -/
theorem instantiate_concatenates_in_order (mgr : Manager) (nA nB : String)
    (mA mB : GenericModule) (pA pB : Value) (rA rB : GlueResponse)
    (hne : nA ≠ nB)
    (hA : hmGet mgr.modules nA = some mA) (hB : hmGet mgr.modules nB = some mB)
    (hok1 : mA.instantiate_value pA = .ok rA) (hok2 : mB.instantiate_value pB = .ok rB) :
    ∃ resp : CwResponse,
      (mgr.instantiate (.obj [(nA, pA), (nB, pB)])).1 = .ok resp ∧
      resp.events = rA.response.events ++ rB.response.events ∧
      resp.attributes = rA.response.attributes ++ rB.response.attributes ∧
      resp.messages = rA.response.messages ++ rB.response.messages ∧
      resp.data = some (encodeJson (.obj (jmapInsert (jmapInsert [] nA rA.data) nB rB.data))) ∧
      (jmapInsert (jmapInsert [] nA rA.data) nB rB.data).map Prod.fst
        = if nB < nA then [nB, nA] else [nA, nB] := by
  have hfold : (mgr.instantiate (.obj [(nA, pA), (nB, pB)])).1
      = .ok (((Aggregator.new.fold_response nA rA).fold_response nB rB).aggregate) := by
    simp [Manager.instantiate, instantiateFold, hA, hB, hok1, hok2, Except.map]
  have hd : ((Aggregator.new.fold_response nA rA).fold_response nB rB).data
      = jmapInsert (jmapInsert [] nA rA.data) nB rB.data := by
    simp [Aggregator.fold_response, Aggregator.new]
  have hdn : ((Aggregator.new.fold_response nA rA).fold_response nB rB).data ≠ [] := by
    rw [hd]; exact jmapInsert_ne_nil _ _ _
  refine ⟨_, hfold, ?_, ?_, ?_, ?_, ?_⟩
  · rw [Aggregator.aggregate, if_neg (by simpa using hdn)]
    simp [Aggregator.fold_response, Aggregator.new, CwResponse.new]
  · rw [Aggregator.aggregate, if_neg (by simpa using hdn)]
    simp [Aggregator.fold_response, Aggregator.new, CwResponse.new]
  · rw [Aggregator.aggregate, if_neg (by simpa using hdn)]
    simp [Aggregator.fold_response, Aggregator.new, CwResponse.new]
  · rw [Aggregator.aggregate, if_neg (by simpa using hdn)]
    simp [hd]
  · simp only [jmapInsert]
    split
    · simp
    · rw [if_neg (Ne.symm hne)]
      simp

/-- C7 witness: two concrete always-succeeding modules under `"A"` and
`"B"`; the aggregated response is computed and matches the concatenation
shape and the two-key data map. -/
theorem instantiate_concatenates_in_order_witness :
    ("A" : String) ≠ "B" ∧
    hmGet (⟨[("A", stubModule "modA"), ("B", stubModule "modB")]⟩ : Manager).modules "A"
      = some (stubModule "modA") ∧
    (stubModule "modA").instantiate_value .null = .ok (stubResponse "modA") ∧
    (∃ resp : CwResponse,
      ((⟨[("A", stubModule "modA"), ("B", stubModule "modB")]⟩ : Manager).instantiate
          (.obj [("A", .null), ("B", .null)])).1 = .ok resp ∧
      resp.events = (stubResponse "modA").response.events
          ++ (stubResponse "modB").response.events ∧
      resp.attributes = (stubResponse "modA").response.attributes
          ++ (stubResponse "modB").response.attributes ∧
      resp.messages = (stubResponse "modA").response.messages
          ++ (stubResponse "modB").response.messages ∧
      resp.data = some (encodeJson (.obj (jmapInsert
          (jmapInsert [] "A" (stubResponse "modA").data) "B" (stubResponse "modB").data))) ∧
      (jmapInsert (jmapInsert [] "A" (stubResponse "modA").data) "B"
          (stubResponse "modB").data).map Prod.fst
        = if ("B" : String) < "A" then ["B", "A"] else ["A", "B"]) :=
  ⟨by decide, rfl, rfl,
    instantiate_concatenates_in_order
      ⟨[("A", stubModule "modA"), ("B", stubModule "modB")]⟩ "A" "B"
      (stubModule "modA") (stubModule "modB") .null .null
      (stubResponse "modA") (stubResponse "modB") (by decide) rfl rfl rfl rfl⟩

/-- C8: converting a bridge `Response` to the outbound host response, a
`Null` data value yields a response with no data field, and a non-null
data value is serialized into the data payload, whose decoding recovers
the very same value — for data in the canonical key-sorted form
`serde_json` values inhabit. -/
theorem response_data_roundtrips (r : GlueResponse) (h : canonical r.data = true) :
    (r.data = .null → (responseToCw r).data = none) ∧
    (r.data ≠ .null →
      (responseToCw r).data = some (encodeJson r.data) ∧
      decodeJson (encodeJson r.data) = some r.data) := by
  obtain ⟨resp, d⟩ := r
  constructor
  · intro hn
    simp only at hn
    subst hn
    rfl
  · intro hn
    refine ⟨?_, decodeJson_encodeJson d h⟩
    cases d with
    | null => exact absurd rfl hn
    | bool b => rfl
    | num n => rfl
    | str s => rfl
    | arr es => rfl
    | obj fs => rfl

/-- C8 witness: a concrete response carrying a two-field object as data:
the conversion emits the serialized payload and decoding recovers the
object. -/
theorem response_data_roundtrips_witness :
    canonical (GlueResponse.mk CwResponse.new
        (.obj [("a", .num 5), ("b", .str "x")])).data = true ∧
    (GlueResponse.mk CwResponse.new
        (.obj [("a", .num 5), ("b", .str "x")])).data ≠ .null ∧
    ((responseToCw (GlueResponse.mk CwResponse.new
          (.obj [("a", .num 5), ("b", .str "x")]))).data
        = some (encodeJson (.obj [("a", .num 5), ("b", .str "x")])) ∧
      decodeJson (encodeJson (.obj [("a", .num 5), ("b", .str "x")]))
        = some (.obj [("a", .num 5), ("b", .str "x")])) :=
  ⟨by simp [canonical, canonicalFields, keysSorted]; decide,
    fun h => Value.noConfusion h,
    (response_data_roundtrips
        (GlueResponse.mk CwResponse.new (.obj [("a", .num 5), ("b", .str "x")]))
        (by simp [canonical, canonicalFields, keysSorted]; decide)).2
      (fun h => Value.noConfusion h)⟩

/-- C9: dispatching a query mutates neither any module's state nor the
registry: `Manager::query` only reads the map (`get`) and takes a shared
borrow of the module (whose `query_value` receives it by shared
reference), so the manager — registry and module handles — after the call
is the manager before it, for every envelope. -/
theorem query_leaves_manager_unchanged (mgr : Manager) (msg : Value) :
    (mgr.query msg).2 = mgr := by
  unfold Manager.query
  (repeat' split) <;> rfl

/-- C10: an instantiate envelope that is the empty object succeeds with the
all-empty response — no events, attributes, messages, and no data field —
while execute and query reject the same zero-entry envelope with the
`too many module payloads` parse error. -/
theorem instantiate_empty_envelope (mgr : Manager) :
    (mgr.instantiate (.obj [])).1 = .ok CwResponse.new ∧
    CwResponse.new.events = [] ∧
    CwResponse.new.attributes = [] ∧
    CwResponse.new.messages = [] ∧
    CwResponse.new.data = none ∧
    (mgr.execute (.obj [])).1
      = .error (Error.debugFmt (.parseError (some "too many module payloads"))) ∧
    (mgr.query (.obj [])).1
      = .error (.genericErr (Error.display (.parseError (some "too many module payloads")))) :=
  ⟨rfl, rfl, rfl, rfl, rfl, rfl, rfl⟩

end Glue
